import Mathlib

/-
  Verification development for the cmus-auto-lyrics lyric display engine.

  Shallow embedding of src/main.py (classes MinimalUI and UI, the main
  reconciliation loop, and fill_tags), src/get_lyrics_azlyrics.py and
  src/get_lyrics_genius.py (their failure sentinel strings).

  Modelling conventions:
  - Python floats that hold exact small decimals (timestamps, positions,
    durations) are modelled as rationals.
  - Python int() truncation toward zero is pyTrunc.
  - Python strings are List Char; text lines are List Char.
  - Code that can raise (ZeroDivisionError in UI.scroll) returns Option.
  - curses screen output is abstracted: a draw call is modelled by the list
    of text segments it computes for the grid; per-cell clipping done by
    curses itself (addstr errors at screen edges) is not modelled.
-/

/-- Python int() applied to an exact rational value: truncation toward zero. -/
def pyTrunc (x : ℚ) : ℤ := if 0 ≤ x then ⌊x⌋ else ⌈x⌉

/-- Value of a decimal digit string, as Python int() of a regex group. -/
def digitsVal (ds : List Char) : ℕ := ds.foldl (fun a c => 10 * a + (c.toNat - 48)) 0

/-- Consume one expected character. -/
def expectCh (ch : Char) : List Char → Option (List Char)
  | c :: rest => if c = ch then some rest else none
  | [] => none

/-- Consume a maximal nonempty run of decimal digits. -/
def takeDigits (l : List Char) : Option (List Char × List Char) :=
  let d := l.takeWhile Char.isDigit
  if d = [] then none else some (d, l.drop d.length)

/-- Attempt to match the regex timestamp pattern of MinimalUI,
    bracket minutes colon seconds dot subseconds bracket, anchored at the
    start of the given character list.  Returns the three digit groups.
    Greedy digit runs followed by a non-digit delimiter make the regex
    deterministic, so a direct scanner is an exact model. -/
def matchTsAt (l : List Char) : Option (List Char × List Char × List Char) := do
  let r1 ← expectCh '[' l
  let (d1, r1a) ← takeDigits r1
  let r2 ← expectCh ':' r1a
  let (d2, r2a) ← takeDigits r2
  let r3 ← expectCh '.' r2a
  let (d3, r3a) ← takeDigits r3
  let _ ← expectCh ']' r3a
  pure (d1, d2, d3)

/-- re.search of the timestamp pattern: leftmost match in the line. -/
def searchTs : List Char → Option (List Char × List Char × List Char)
  | [] => none
  | c :: rest =>
    match matchTsAt (c :: rest) with
    | some g => some g
    | none => searchTs rest

/-- Timestamp in seconds extracted from one lyric line, as computed by
    MinimalUI.update_lyrics: minutes times 60 plus seconds plus the
    subsecond group divided by 100 (the code divides by 100 regardless of
    how many digits the subsecond group has). -/
def lineTimestamp (l : List Char) : Option ℚ :=
  (searchTs l).map
    (fun g => (digitsVal g.1 : ℚ) * 60 + (digitsVal g.2.1 : ℚ) + (digitsVal g.2.2 : ℚ) / 100)

/-- Python str.split with a newline separator, keeping empty pieces. -/
def splitLines (s : List Char) : List (List Char) := s.splitOnP (· = '\n')

/-- State of the MinimalUI class: loaded lines, their extracted timestamps,
    the has_timestamps flag, and the current and last displayed indices. -/
structure MinimalUI where
  lines : List (List Char)
  timestamps : List (Option ℚ)
  has_timestamps : Bool
  current_line_idx : ℤ
  last_displayed_idx : ℤ

/-- MinimalUI.update_lyrics: split the lyric text into lines, reset indices,
    extract per-line timestamps, and set has_timestamps when any line has one. -/
def MinimalUI.update_lyrics (ui : MinimalUI) (lyrics : List Char) : MinimalUI :=
  let ls := splitLines lyrics
  { ui with
    lines := ls
    current_line_idx := 0
    last_displayed_idx := -1
    timestamps := ls.map lineTimestamp
    has_timestamps := (ls.map lineTimestamp).any Option.isSome }

/-- The scan loop inside MinimalUI.scroll in timestamped mode, with the
    running enumeration index i and the accumulator current_idx. -/
def scanAux : List (Option ℚ) → ℚ → ℕ → ℕ → ℕ
  | [], _, _, acc => acc
  | o :: rest, pos, i, acc =>
    match o with
    | some t => if t ≤ pos then scanAux rest pos (i + 1) i else acc
    | none => scanAux rest pos (i + 1) acc

/-- MinimalUI.scroll: returns unchanged on empty lines or nonpositive
    duration; otherwise picks the current line by the timestamp scan when
    has_timestamps is set, else proportionally.  The redraw bookkeeping
    leaves last_displayed_idx equal to the new index in either branch. -/
def MinimalUI.scroll (ui : MinimalUI) (song_duration song_position : ℚ) : MinimalUI :=
  if ui.lines = [] ∨ song_duration ≤ 0 then ui
  else
    let idx : ℤ :=
      if ui.has_timestamps then (scanAux ui.timestamps song_position 0 0 : ℤ)
      else pyTrunc (song_position * ui.lines.length / song_duration)
    { ui with current_line_idx := idx, last_displayed_idx := idx }

/-- Modelled from the words of the specification, for comparison with the
    source scan: index of the first line whose timestamp exceeds the
    position (the length of the list when there is none). -/
def firstExceed (ts : List (Option ℚ)) (pos : ℚ) : ℕ :=
  ts.findIdx (fun o => o.any (fun t => decide (pos < t)))

/-- Modelled from the words of the specification: the index of the last
    line whose timestamp is at most the position, none when no line
    qualifies.  Lines without a timestamp are transparent. -/
def lastQual : List (Option ℚ) → ℚ → Option ℕ
  | [], _ => none
  | o :: rest, pos =>
    match lastQual rest pos with
    | some j => some (j + 1)
    | none => if o.any (fun t => decide (t ≤ pos)) then some 0 else none

/-- Modelled from the words of the specification: the locator result in
    timestamped mode is the last qualifying line among the lines strictly
    before the first line whose timestamp exceeds the position, and 0 when
    no line qualifies. -/
def specLocate (ts : List (Option ℚ)) (pos : ℚ) : ℕ :=
  (lastQual (ts.take (firstExceed ts pos)) pos).getD 0

/-- Functional form of the scan: the chosen index relative to the start of
    the remaining list, none when nothing is chosen before the break. -/
def scanO : List (Option ℚ) → ℚ → Option ℕ
  | [], _ => none
  | none :: rest, pos => (scanO rest pos).map (· + 1)
  | some t :: rest, pos =>
    if t ≤ pos then some (((scanO rest pos).map (· + 1)).getD 0) else none

theorem scanAux_eq_scanO (ts : List (Option ℚ)) (pos : ℚ) :
    ∀ i acc, scanAux ts pos i acc = match scanO ts pos with
      | some j => i + j
      | none => acc := by
  induction ts with
  | nil => intro i acc; simp [scanAux, scanO]
  | cons o rest ih =>
    intro i acc
    match o with
    | none =>
      simp only [scanAux, scanO]
      cases h : scanO rest pos with
      | none => simpa [h] using ih (i + 1) acc
      | some j => simpa [h, Nat.add_assoc, Nat.add_comm 1 j] using ih (i + 1) acc
    | some t =>
      simp only [scanAux, scanO]
      by_cases hle : t ≤ pos
      · simp only [if_pos hle]
        cases h : scanO rest pos with
        | none => simpa [h] using ih (i + 1) i
        | some j => simpa [h, Nat.add_assoc, Nat.add_comm 1 j] using ih (i + 1) i
      · simp [if_neg hle]

theorem scanO_eq_lastQual (ts : List (Option ℚ)) (pos : ℚ) :
    scanO ts pos = lastQual (ts.take (firstExceed ts pos)) pos := by
  induction ts with
  | nil => simp [scanO, firstExceed, lastQual]
  | cons o rest ih =>
    match o with
    | none =>
      have hfe : firstExceed (none :: rest) pos = firstExceed rest pos + 1 := by
        simp [firstExceed, List.findIdx_cons, Option.any]
      rw [hfe]
      simp only [scanO, List.take_succ_cons, lastQual, ih]
      cases lastQual (rest.take (firstExceed rest pos)) pos with
      | none => simp [Option.any]
      | some j => simp
    | some t =>
      by_cases hgt : pos < t
      · have hfe : firstExceed (some t :: rest) pos = 0 := by
          simp [firstExceed, List.findIdx_cons, Option.any, hgt]
        rw [hfe]
        have : ¬ t ≤ pos := not_le.mpr hgt
        simp [scanO, this, lastQual]
      · have hle : t ≤ pos := le_of_not_lt fun h => hgt h
        have hfe : firstExceed (some t :: rest) pos = firstExceed rest pos + 1 := by
          simp [firstExceed, List.findIdx_cons, Option.any, hgt]
        rw [hfe]
        simp only [scanO, if_pos hle, List.take_succ_cons, lastQual, ih]
        cases lastQual (rest.take (firstExceed rest pos)) pos with
        | none => simp [Option.any, hle]
        | some j => simp

theorem scanAux_eq_specLocate (ts : List (Option ℚ)) (pos : ℚ) :
    scanAux ts pos 0 0 = specLocate ts pos := by
  rw [scanAux_eq_scanO ts pos 0 0, specLocate, ← scanO_eq_lastQual]
  cases scanO ts pos with
  | none => rfl
  | some j => simp

/-- State of the full UI class: loaded lines and the scroll position, with
    the position_old field used to suppress redundant redraws. -/
structure UI where
  lines : List (List Char)
  position : ℤ
  position_old : ℤ

/-- UI.update_lyrics: split the lyric text into lines.  The scroll position
    is not reset here. -/
def UI.update_lyrics (ui : UI) (lyrics : List Char) : UI :=
  { ui with lines := splitLines lyrics }

/-- UI.scroll: computes a proportional line index and centers the viewport
    on it.  There is no guard on the duration, so a zero duration raises
    ZeroDivisionError, modelled as none. -/
def UI.scroll (ui : UI) (song_duration song_position : ℚ) (h : ℕ) : Option UI :=
  if song_duration = 0 then none
  else
    let line_index := pyTrunc (song_position * ui.lines.length / song_duration)
    let p := max 0 (line_index - (h / 2 : ℕ))
    some { ui with position := p, position_old := p }

/-- Key codes relevant to the input handlers. -/
inductive Key
  | up
  | down
  | resize
  | idle

/-- UI.wait_input: arrow keys move the scroll position when not at the
    corresponding boundary; the Bool result reports whether the position
    actually moved (and a redraw happened). -/
def UI.wait_input (ui : UI) (h : ℕ) (k : Key) : UI × Bool :=
  match k with
  | .up =>
    if 0 < ui.position then ({ ui with position := ui.position - 1 }, true)
    else (ui, false)
  | .down =>
    if (ui.position : ℚ) < (ui.lines.length : ℚ) - (h : ℚ) / 2 then
      ({ ui with position := ui.position + 1 }, true)
    else (ui, false)
  | .resize => (ui, false)
  | .idle => (ui, false)

/-- The wrapping performed by UI.draw for one logical line: while the line
    has at least w - 1 characters, emit its first w - 1 characters and
    continue with two pad spaces prepended to the rest; the row budget b
    (remaining screen rows) bounds the number of emitted segments. -/
def wrapUI (w : ℕ) : ℕ → List Char → List (List Char)
  | 0, _ => []
  | b + 1, line =>
    if w - 1 ≤ line.length then
      line.take (w - 1) :: wrapUI w b (' ' :: ' ' :: line.drop (w - 1))
    else [line]

/-- Concatenation of continuation segments with their two inserted pad
    spaces removed. -/
def dropPad (segs : List (List Char)) : List Char := (segs.map (List.drop 2)).flatten

/-- Reconstruction of a logical line from its wrapped segments: the first
    segment followed by the continuations stripped of the inserted pad. -/
def unstripUI : List (List Char) → List Char
  | [] => []
  | s :: rest => s ++ dropPad rest

/-- Python str.split with no separator: split on whitespace runs and drop
    empty pieces. -/
def splitWords (l : List Char) : List (List Char) :=
  (l.splitOnP Char.isWhitespace).filter (· ≠ [])

/-- Words joined by single spaces, the shape in which the word-wrap of
    MinimalUI accumulates a screen row. -/
def joinSp : List (List Char) → List Char
  | [] => []
  | [w] => w
  | w :: ws => w ++ ' ' :: joinSp ws

/-- The word-packing loop of MinimalUI._draw_centered_line: greedily add
    words to the current row while they fit, emit the row otherwise; lp is
    the current row and h the row budget; emission happens only while
    lp < h, and the loop breaks once the budget is exhausted. -/
def mwrapAux (width h : ℕ) : List (List Char) → List Char → ℕ → List (List Char)
  | [], cur, lp => if cur ≠ [] ∧ lp < h then [cur] else []
  | word :: ws, cur, lp =>
    if cur.length + word.length + 1 < width - 2 then
      mwrapAux width h ws (if cur = [] then word else cur ++ ' ' :: word) lp
    else
      if h ≤ (if cur = [] then lp else lp + 1) then
        (if cur ≠ [] ∧ lp < h then [cur] else [])
      else
        (if cur ≠ [] ∧ lp < h then [cur] else []) ++
          mwrapAux width h ws word (if cur = [] then lp else lp + 1)

/-- The text segments drawn by MinimalUI._draw_centered_line for one
    logical line: nothing for an empty line, the line itself when it is
    shorter than width - 2, and otherwise the word-packed rows. -/
def minimalSegs (width h : ℕ) (line : List Char) : List (List Char) :=
  if line = [] then []
  else if line.length < width - 2 then [line]
  else mwrapAux width h (splitWords line) [] 0

/-- Sentinel strings listed in NOT_LYRICS in src/main.py. -/
def NOT_LYRICS : List String :=
  ["No internet connection.",
   "No Genius API token provided.",
   "No lyrics tag. Running in offline mode."]

/-- Audio file tag state relevant to fill_tags: the string representation
    of the lyrics tag, and the first values of the artist and title tags
    (none when the tag is absent). -/
structure Tags where
  lyrics : String
  artist : Option String
  title : Option String
deriving DecidableEq

/-- The fill_tags function: when the lyric text is not one of the
    NOT_LYRICS sentinels and the existing lyrics tag is shorter than 16
    characters, write the lyrics tag and fill in artist and title only when
    absent, then save.  The Bool result records whether a save happened. -/
def fill_tags (tags : Tags) (lyrics artist title : String) : Tags × Bool :=
  if lyrics ∈ NOT_LYRICS then (tags, false)
  else if tags.lyrics.length < 16 then
    ({ lyrics := lyrics
       artist := some (tags.artist.getD artist)
       title := some (tags.title.getD title) }, true)
  else (tags, false)

/-- Number of loop iterations between polls of the external player, from
    check_status_s = 1 and delay = 0.05 in main. -/
def checkStatus : ℕ := 20

/-- State carried across iterations of the main reconciliation loop. -/
structure LoopState where
  ui : UI
  song_path : String
  song_path_old : String
  duration : ℚ
  position : ℚ
  position_old : ℚ
  timer : ℕ
  disable_auto_scroll : Bool

/-- Result of one loop iteration: the next state, a break out of the loop
    (no song playing), or an uncaught exception. -/
inductive StepRes
  | next (s : LoopState)
  | brk (s : LoopState)
  | crash

/-- Tail of one loop iteration after the song-change check: the auto-scroll
    block, then input handling which sets disable_auto_scroll when the
    input actually moved the view, then the timer increment. -/
def loopTail (auto : Bool) (h : ℕ) (k : Key) (st : LoopState) : StepRes :=
  let scrolled : Option LoopState :=
    if auto = true ∧ st.disable_auto_scroll = false ∧ st.position ≠ st.position_old then
      match st.ui.scroll st.duration st.position h with
      | some ui2 => some { st with ui := ui2, position_old := st.position }
      | none => none
    else some st
  match scrolled with
  | none => .crash
  | some st2 =>
    let r := st2.ui.wait_input h k
    .next { st2 with
            ui := r.1
            disable_auto_scroll := st2.disable_auto_scroll || r.2
            timer := st2.timer + 1 }

/-- One iteration of the main loop: every checkStatus ticks the player is
    polled (the poll result and the freshly fetched lyric text are inputs
    from the environment); a song change reloads lyrics and re-enables
    auto-scroll, an empty song path breaks the loop; then the common tail
    runs. -/
def loopStep (auto : Bool) (h : ℕ) (poll : String × ℚ × ℚ) (newLyrics : List Char)
    (k : Key) (st : LoopState) : StepRes :=
  let fire := checkStatus ≤ st.timer
  let sp := if fire then poll.1 else st.song_path
  let dur := if fire then poll.2.1 else st.duration
  let pos := if fire then poll.2.2 else st.position
  let tm := if fire then 0 else st.timer
  let st1 : LoopState :=
    { st with song_path := sp, duration := dur, position := pos, timer := tm }
  if sp ≠ st1.song_path_old then
    if sp = "" then .brk st1
    else
      loopTail auto h k
        { st1 with
          song_path_old := sp
          ui := st1.ui.update_lyrics newLyrics
          disable_auto_scroll := false }
  else loopTail auto h k st1

/-- Events that touch the scroll position of the full UI over its lifetime:
    auto-follow scroll updates and manual key inputs. -/
inductive UIEv
  | scrollEv (dur pos : ℚ) (h : ℕ)
  | keyEv (h : ℕ) (k : Key)

/-- Application of one event to the UI state. -/
def applyEv (st : UI) : UIEv → Option UI
  | .scrollEv dur pos h => st.scroll dur pos h
  | .keyEv h k => some (st.wait_input h k).1

/-- Application of a sequence of events, stopping at a crash. -/
def applyEvs : UI → List UIEv → Option UI
  | st, [] => some st
  | st, e :: es =>
    match applyEv st e with
    | some st2 => applyEvs st2 es
    | none => none

/-
  Helper lemmas about digit groups.
-/

theorem digitsVal_foldl_lt (ds : List Char) :
    ∀ acc : ℕ, (∀ c ∈ ds, c.isDigit = true) →
      ds.foldl (fun a c => 10 * a + (c.toNat - 48)) acc < (acc + 1) * 10 ^ ds.length := by
  induction ds with
  | nil => intro acc _; simp
  | cons c rest ih =>
    intro acc hdig
    have hc : c.toNat - 48 ≤ 9 := by
      have h1 : c.isDigit = true := hdig c (List.mem_cons_self c rest)
      simp only [Char.isDigit, Bool.and_eq_true, decide_eq_true_eq, ge_iff_le] at h1
      have h3 : c.val.toNat ≤ 57 := UInt32.toNat_le_of_le (by norm_num) h1.2
      have h4 : c.toNat = c.val.toNat := rfl
      omega
    have hrest : ∀ x ∈ rest, x.isDigit = true := fun x hx =>
      hdig x (List.mem_cons_of_mem c hx)
    have h3 := ih (10 * acc + (c.toNat - 48)) hrest
    have h4 : (10 * acc + (c.toNat - 48) + 1) * 10 ^ rest.length ≤
        (acc + 1) * 10 ^ (rest.length + 1) := by
      have : 10 * acc + (c.toNat - 48) + 1 ≤ (acc + 1) * 10 := by omega
      calc (10 * acc + (c.toNat - 48) + 1) * 10 ^ rest.length
          ≤ (acc + 1) * 10 * 10 ^ rest.length := Nat.mul_le_mul_right _ this
        _ = (acc + 1) * 10 ^ (rest.length + 1) := by ring
    calc List.foldl (fun a c => 10 * a + (c.toNat - 48)) (10 * acc + (c.toNat - 48)) rest
        < (10 * acc + (c.toNat - 48) + 1) * 10 ^ rest.length := h3
      _ ≤ (acc + 1) * 10 ^ (rest.length + 1) := h4
      _ = (acc + 1) * 10 ^ (c :: rest).length := by simp

theorem digitsVal_lt (ds : List Char) (h : ∀ c ∈ ds, c.isDigit = true) :
    digitsVal ds < 10 ^ ds.length := by
  have := digitsVal_foldl_lt ds 0 h
  simpa [digitsVal] using this

theorem takeDigits_digits {l d r : List Char} (h : takeDigits l = some (d, r)) :
    ∀ c ∈ d, c.isDigit = true := by
  simp only [takeDigits] at h
  split at h
  · exact absurd h (by simp)
  · intro c hc
    have hd : d = l.takeWhile Char.isDigit := by
      have := Option.some.inj h
      exact (congrArg Prod.fst this).symm
    exact List.mem_takeWhile_imp (hd ▸ hc)

theorem matchTsAt_digits {l : List Char} {g : List Char × List Char × List Char}
    (h : matchTsAt l = some g) : ∀ c ∈ g.2.2, c.isDigit = true := by
  unfold matchTsAt at h
  simp only [Option.bind_eq_bind, Option.bind_eq_some, Option.pure_def,
    Option.some.injEq] at h
  obtain ⟨r1, _, ⟨d1, r1a⟩, hd1, r2, _, ⟨d2, r2a⟩, hd2, r3, _, ⟨d3, r3a⟩, hd3, r4, _, hg⟩ := h
  have := takeDigits_digits hd3
  simpa [← hg] using this

theorem searchTs_digits {l : List Char} {g : List Char × List Char × List Char}
    (h : searchTs l = some g) : ∀ c ∈ g.2.2, c.isDigit = true := by
  induction l with
  | nil => simp [searchTs] at h
  | cons c rest ih =>
    rw [searchTs] at h
    split at h
    · rename_i g2 heq
      injection h with h2
      subst h2
      exact matchTsAt_digits heq
    · exact ih h

/-
  Claim C1.
-/

/-- C1 counterexample: UI.scroll called with durationSeconds equal to 0
    raises ZeroDivisionError (modelled as none) instead of returning the
    defined empty result, so the claim fails for the full UI class. -/
theorem ui_scroll_zero_duration_raises :
    UI.scroll { lines := [['a'], ['b']], position := 0, position_old := 0 } 0 5 10 = none := by
  norm_num [UI.scroll]

/-- C1 (amended): MinimalUI.scroll with a nonpositive duration returns the
    state unchanged and never raises; UI.scroll with duration 0 raises
    ZeroDivisionError for every lyric set, position and window height. -/
theorem scroll_zero_duration :
    (∀ (ui : MinimalUI) (dur pos : ℚ), dur ≤ 0 → ui.scroll dur pos = ui) ∧
    (∀ (ui : UI) (pos : ℚ) (h : ℕ), ui.scroll 0 pos h = none) := by
  constructor
  · intro ui dur pos hd
    unfold MinimalUI.scroll
    rw [if_pos (Or.inr hd)]
  · intro ui pos h
    unfold UI.scroll
    rw [if_pos rfl]

/-- C1 witness: the amended claim applied to a concrete one-line lyric set
    at duration 0. -/
theorem scroll_zero_duration_witness :
    MinimalUI.scroll
      { lines := [['a']], timestamps := [none], has_timestamps := false,
        current_line_idx := 0, last_displayed_idx := -1 } 0 3 =
      { lines := [['a']], timestamps := [none], has_timestamps := false,
        current_line_idx := 0, last_displayed_idx := -1 } ∧
    UI.scroll { lines := [['a']], position := 0, position_old := 0 } 0 3 5 = none :=
  ⟨scroll_zero_duration.1 _ 0 3 (by norm_num), scroll_zero_duration.2 _ 3 5⟩

/-
  Claim C2.
-/

/-- Ten untimestamped lines, as loaded by MinimalUI.update_lyrics from a
    lyric text of ten plain lines. -/
def exProp : MinimalUI :=
  { lines := List.replicate 10 ['x']
    timestamps := List.replicate 10 none
    has_timestamps := false
    current_line_idx := 0
    last_displayed_idx := -1 }

/-- C2 counterexample: with 10 lines, duration 100 and position 200, the
    proportional index is 20, outside the claimed clamped range [0, 9]. -/
theorem minimal_scroll_unclamped :
    (exProp.scroll 100 200).current_line_idx = 20 ∧
    ¬ (exProp.scroll 100 200).current_line_idx ≤ (exProp.lines.length : ℤ) - 1 := by
  have h : (exProp.scroll 100 200).current_line_idx = 20 := by
    norm_num [MinimalUI.scroll, exProp, pyTrunc]
  refine ⟨h, ?_⟩
  rw [h]
  norm_num [exProp]

/-- C2 (amended): in proportional mode the current index is the Python
    int() of position times line count over duration, with no clamping; it
    is the floor for nonnegative positions, it is nonnegative, and it stays
    at most N - 1 when the position is below the duration, but positions at
    or beyond the duration push it past N - 1. -/
theorem minimal_scroll_proportional (ui : MinimalUI) (dur pos : ℚ)
    (ht : ui.has_timestamps = false) (hl : ui.lines ≠ [])
    (hd : 0 < dur) (hp : 0 ≤ pos) :
    (ui.scroll dur pos).current_line_idx = ⌊pos * ui.lines.length / dur⌋ ∧
    0 ≤ (ui.scroll dur pos).current_line_idx ∧
    (pos < dur → (ui.scroll dur pos).current_line_idx ≤ (ui.lines.length : ℤ) - 1) := by
  have hx : (0 : ℚ) ≤ pos * ui.lines.length / dur :=
    div_nonneg (mul_nonneg hp (Nat.cast_nonneg _)) hd.le
  have hcond : ¬ (ui.lines = [] ∨ dur ≤ 0) := by
    push_neg
    exact ⟨hl, hd⟩
  have hval : (ui.scroll dur pos).current_line_idx = ⌊pos * ui.lines.length / dur⌋ := by
    simp only [MinimalUI.scroll, if_neg hcond, ht, Bool.false_eq_true, if_false,
      pyTrunc, if_pos hx]
  refine ⟨hval, ?_, ?_⟩
  · rw [hval]
    exact Int.floor_nonneg.mpr hx
  · intro hlt
    rw [hval]
    have hN : 0 < (ui.lines.length : ℚ) := by
      have : ui.lines.length ≠ 0 := fun h0 => hl (List.length_eq_zero.mp h0)
      exact_mod_cast Nat.pos_of_ne_zero this
    have hxlt : pos * ui.lines.length / dur < ui.lines.length := by
      rw [div_lt_iff₀ hd]
      calc pos * ui.lines.length < dur * ui.lines.length :=
            mul_lt_mul_of_pos_right hlt hN
        _ = (ui.lines.length : ℚ) * dur := mul_comm _ _
    have h6 : ⌊pos * ui.lines.length / dur⌋ < (ui.lines.length : ℤ) :=
      Int.floor_lt.mpr (by exact_mod_cast hxlt)
    omega

/-- C2 witness: the specification example, 10 lines, duration 100 and
    position 55, gives index 5. -/
theorem minimal_scroll_proportional_witness :
    (exProp.scroll 100 55).current_line_idx = 5 := by
  have h := (minimal_scroll_proportional exProp 100 55 rfl
    (by simp [exProp]) (by norm_num) (by norm_num)).1
  rw [h]
  norm_num [exProp]

/-
  Claim C3.
-/

/-- C3: in timestamped mode MinimalUI.scroll sets the current index to
    exactly the specification locator result: the last line with timestamp
    at most the position among the lines before the first line whose
    timestamp exceeds the position, untimestamped lines being transparent,
    and 0 when no line qualifies. -/
theorem minimal_scroll_timestamped (ui : MinimalUI) (dur pos : ℚ)
    (hl : ui.lines ≠ []) (ht : ui.has_timestamps = true) (hd : 0 < dur) :
    (ui.scroll dur pos).current_line_idx = specLocate ui.timestamps pos := by
  have hcond : ¬ (ui.lines = [] ∨ dur ≤ 0) := by
    push_neg
    exact ⟨hl, hd⟩
  simp only [MinimalUI.scroll, if_neg hcond, ht, if_true]
  exact_mod_cast scanAux_eq_specLocate ui.timestamps pos

/-- Three lines with strictly increasing timestamps 0, 5, 10. -/
def exTs : MinimalUI :=
  { lines := [['a'], ['b'], ['c']]
    timestamps := [some 0, some 5, some 10]
    has_timestamps := true
    current_line_idx := 0
    last_displayed_idx := -1 }

/-- C3 witness: with timestamps 0, 5, 10 and position 7 the scroll picks
    index 1. -/
theorem minimal_scroll_timestamped_witness :
    (exTs.scroll 20 7).current_line_idx = 1 := by
  have h := minimal_scroll_timestamped exTs 20 7 (by simp [exTs]) rfl (by norm_num)
  rw [h]
  norm_num [exTs, specLocate, firstExceed, lastQual, List.findIdx_cons, Option.any]

/-
  Claim C4.
-/

/-- C4 counterexample: the line with the 3-digit sub-second field 999 is
    converted by dividing by 100 regardless of the digit count, giving
    10.99 seconds instead of the digit-scaled 1.999, and the fractional
    contribution 9.99 is not below one second. -/
theorem timestamp_three_digit_subfield :
    lineTimestamp ("[00:01.999]".data) = some (1099 / 100) ∧
    (1099 / 100 : ℚ) ≠ (0 : ℚ) * 60 + 1 + 999 / 1000 ∧
    ¬ ((1099 / 100 : ℚ) - ((0 : ℚ) * 60 + 1) < 1) := by
  refine ⟨?_, by norm_num, by norm_num⟩
  have h : searchTs ("[00:01.999]".data) = some ("00".data, "01".data, "999".data) := by
    decide
  have hd1 : digitsVal ("00".data) = 0 := by decide
  have hd2 : digitsVal ("01".data) = 1 := by decide
  have hd3 : digitsVal ("999".data) = 999 := by decide
  rw [lineTimestamp, h]
  simp only [Option.map_some, Option.map]
  rw [hd1, hd2, hd3]
  norm_num

/-- C4 (amended): for every raw line in which the timestamp regex finds a
    match with groups a, b, c, the parser converts it to seconds as
    int(a) times 60 plus int(b) plus int(c) divided by 100, regardless of
    the digit count of the sub-second group c; the fractional term is below
    one second when c has at most two digits (a two-digit field matches the
    hundredths reading, but a three-digit field is still divided by 100 and
    can contribute one second or more). -/
theorem timestamp_conversion (l a b c : List Char)
    (h : searchTs l = some (a, b, c)) :
    lineTimestamp l =
      some ((digitsVal a : ℚ) * 60 + (digitsVal b : ℚ) + (digitsVal c : ℚ) / 100) ∧
    (c.length ≤ 2 → (digitsVal c : ℚ) / 100 < 1) := by
  constructor
  · rw [lineTimestamp, h]
    rfl
  · intro hlen
    have hdig : ∀ x ∈ c, x.isDigit = true := searchTs_digits h
    have h1 : digitsVal c < 10 ^ c.length := digitsVal_lt c hdig
    have h2 : (10 : ℕ) ^ c.length ≤ 10 ^ 2 :=
      Nat.pow_le_pow_right (by norm_num) hlen
    have h3 : digitsVal c < 100 := by omega
    rw [div_lt_one (by norm_num : (0 : ℚ) < 100)]
    exact_mod_cast h3

/-- C4 witness: the specification example token with minutes 02, seconds 48
    and two-digit sub-second field 93 converts to 168.93 seconds with a
    fractional part below one. -/
theorem timestamp_conversion_witness :
    lineTimestamp ("[02:48.93]".data) =
      some ((2 : ℚ) * 60 + (48 : ℚ) + (93 : ℚ) / 100) ∧
    ((93 : ℚ) / 100) < 1 := by
  have h : searchTs ("[02:48.93]".data) = some ("02".data, "48".data, "93".data) := by
    decide
  have hall := timestamp_conversion _ _ _ _ h
  have hd1 : digitsVal ("02".data) = 2 := by decide
  have hd2 : digitsVal ("48".data) = 48 := by decide
  have hd3 : digitsVal ("93".data) = 93 := by decide
  constructor
  · have h1 := hall.1
    rw [hd1, hd2, hd3] at h1
    exact_mod_cast h1
  · have h2 := hall.2 (by decide)
    rw [hd3] at h2
    exact_mod_cast h2

/-
  Claim C6.
-/

/-- C6 counterexample: UI.draw hard-cuts the line at the column limit 4
    even though a space occurs at index 2, before the limit; the claimed
    split at the last space would have produced the first segment of two
    characters instead. -/
theorem ui_wrap_hard_cut_despite_space :
    wrapUI 5 10 ("ab cdef".data) = ["ab c".data, "  de".data, "  f".data] ∧
    ("ab c".data) ≠ ("ab".data) := by
  decide

theorem joinSp_append (cs : List (List Char)) (w : List Char) (h : cs ≠ []) :
    joinSp (cs ++ [w]) = joinSp cs ++ ' ' :: w := by
  induction cs with
  | nil => exact absurd rfl h
  | cons c rest ih =>
    cases rest with
    | nil => simp [joinSp]
    | cons c2 rest2 =>
      have h2 := ih (List.cons_ne_nil c2 rest2)
      calc joinSp ((c :: c2 :: rest2) ++ [w])
          = c ++ ' ' :: joinSp ((c2 :: rest2) ++ [w]) := by simp [joinSp]
        _ = c ++ ' ' :: (joinSp (c2 :: rest2) ++ ' ' :: w) := by rw [h2]
        _ = joinSp (c :: c2 :: rest2) ++ ' ' :: w := by simp [joinSp]

theorem mwrap_seg_words (width h : ℕ) (W : List (List Char)) :
    ∀ (ws : List (List Char)) (cur : List Char) (lp : ℕ),
      (∀ x ∈ ws, x ∈ W) →
      (cur = [] ∨ ∃ cs, cs ≠ [] ∧ (∀ x ∈ cs, x ∈ W) ∧ cur = joinSp cs) →
      ∀ seg ∈ mwrapAux width h ws cur lp,
        ∃ cs, cs ≠ [] ∧ (∀ x ∈ cs, x ∈ W) ∧ seg = joinSp cs := by
  intro ws
  induction ws with
  | nil =>
    intro cur lp _ hcur seg hseg
    rw [mwrapAux] at hseg
    split at hseg
    · rename_i hc
      rw [List.mem_singleton] at hseg
      subst hseg
      rcases hcur with h1 | h1
      · exact absurd h1 hc.1
      · exact h1
    · simp at hseg
  | cons word ws2 ih =>
    intro cur lp hws hcur seg hseg
    have hwordW : word ∈ W := hws word (List.mem_cons_self _ _)
    have hws2 : ∀ x ∈ ws2, x ∈ W := fun x hx => hws x (List.mem_cons_of_mem _ hx)
    have hcur2 : (if cur = [] then word else cur ++ ' ' :: word) = [] ∨
        ∃ cs, cs ≠ [] ∧ (∀ x ∈ cs, x ∈ W) ∧
          (if cur = [] then word else cur ++ ' ' :: word) = joinSp cs := by
      right
      by_cases hc : cur = []
      · refine ⟨[word], List.cons_ne_nil _ _, ?_, by simp [hc, joinSp]⟩
        intro x hx
        rw [List.mem_singleton] at hx
        subst hx
        exact hwordW
      · rcases hcur with h1 | h1
        · exact absurd h1 hc
        · obtain ⟨cs, hne, hmem, hj⟩ := h1
          refine ⟨cs ++ [word], by simp, ?_, ?_⟩
          · intro x hx
            rcases List.mem_append.mp hx with h2 | h2
            · exact hmem x h2
            · rw [List.mem_singleton] at h2
              subst h2
              exact hwordW
          · rw [if_neg hc, hj, joinSp_append cs word hne]
    have hsingle : ∀ s ∈ (if cur ≠ [] ∧ lp < h then [cur] else []),
        ∃ cs, cs ≠ [] ∧ (∀ x ∈ cs, x ∈ W) ∧ s = joinSp cs := by
      intro s hs
      split at hs
      · rename_i hc
        rw [List.mem_singleton] at hs
        subst hs
        rcases hcur with h1 | h1
        · exact absurd h1 hc.1
        · exact h1
      · simp at hs
    have hword1 : ∀ lp2, ∀ s ∈ mwrapAux width h ws2 word lp2,
        ∃ cs, cs ≠ [] ∧ (∀ x ∈ cs, x ∈ W) ∧ s = joinSp cs := by
      intro lp2 s hs
      refine ih _ _ hws2 ?_ s hs
      right
      refine ⟨[word], List.cons_ne_nil _ _, ?_, by simp [joinSp]⟩
      intro x hx
      rw [List.mem_singleton] at hx
      subst hx
      exact hwordW
    rw [mwrapAux] at hseg
    split at hseg
    · exact ih _ lp hws2 hcur2 seg hseg
    · split at hseg
      all_goals
        split at hseg
        · exact hsingle seg hseg
        · rcases List.mem_append.mp hseg with h2 | h2
          · exact hsingle seg h2
          · exact hword1 _ seg h2

/-- C6 (amended): the two renderers wrap differently and neither follows
    the claimed combined rule.  The full UI renderer always hard-cuts a
    long logical line at the column limit cols - 1, regardless of any
    space before the limit; the minimal renderer packs whole words
    greedily, so every segment it emits is a space-joined run of words of
    the line and it never hard-cuts inside a word. -/
theorem renderer_wrap_modes :
    (∀ (w b : ℕ) (line : List Char), w - 1 ≤ line.length → 1 ≤ b →
       ∃ rest, wrapUI w b line = line.take (w - 1) :: rest) ∧
    (∀ (width h : ℕ) (line : List Char), ∀ seg ∈ mwrapAux width h (splitWords line) [] 0,
       ∃ ws, ws ≠ [] ∧ (∀ x ∈ ws, x ∈ splitWords line) ∧ seg = joinSp ws) := by
  constructor
  · intro w b line hlen hb
    match b, hb with
    | b + 1, _ =>
      refine ⟨wrapUI w b (' ' :: ' ' :: line.drop (w - 1)), ?_⟩
      rw [wrapUI, if_pos hlen]
  · intro width h line seg hseg
    exact mwrap_seg_words width h (splitWords line) (splitWords line) [] 0
      (fun x hx => hx) (Or.inl rfl) seg hseg

/-- C6 witness: the amended claim applied to the hard-cut example line for
    the full renderer and to a two-word line for the minimal renderer. -/
theorem renderer_wrap_modes_witness :
    (∃ rest, wrapUI 5 10 ("ab cdef".data) = ("ab cdef".data.take 4) :: rest) ∧
    (∃ ws, ws ≠ [] ∧ (∀ x ∈ ws, x ∈ splitWords ("a b".data)) ∧ ['a'] = joinSp ws) :=
  ⟨renderer_wrap_modes.1 5 10 ("ab cdef".data) (by decide) (by decide),
   renderer_wrap_modes.2 5 10 ("a b".data) ['a'] (by decide)⟩

/-
  Claim C7.
-/

/-- C7 counterexample: the minimal renderer wraps the line with two
    consecutive spaces into the segments a and b; neither joining the
    segments with single spaces nor plain concatenation reproduces the
    original line, because str.split collapsed the double space. -/
theorem minimal_wrap_loses_spacing :
    minimalSegs 5 10 ("a  b".data) = [['a'], ['b']] ∧
    joinSp [['a'], ['b']] ≠ ("a  b".data) ∧
    ([['a'], ['b']] : List (List Char)).flatten ≠ ("a  b".data) := by
  decide

theorem wrapUI_cons (w b : ℕ) (line : List Char) (hb : 1 ≤ b) :
    ∃ t ts, wrapUI w b line = t :: ts ∧ (t = line.take (w - 1) ∨ t = line) := by
  match b, hb with
  | b + 1, _ =>
    by_cases hc : w - 1 ≤ line.length
    · exact ⟨line.take (w - 1), wrapUI w b (' ' :: ' ' :: line.drop (w - 1)),
        by rw [wrapUI, if_pos hc], Or.inl rfl⟩
    · exact ⟨line, [], by rw [wrapUI, if_neg hc], Or.inr rfl⟩

/-- C7 (amended): the word-wrap round-trip holds for the full UI renderer:
    with at least 4 columns and a row budget exceeding the line length, the
    first segment followed by the continuation segments stripped of their
    two inserted pad spaces reproduces the logical line exactly.  For the
    minimal renderer the round-trip only holds up to whitespace
    normalization, since its word split collapses whitespace runs. -/
theorem ui_wrap_round_trip (w : ℕ) (hw : 4 ≤ w) :
    ∀ (b : ℕ) (line : List Char), line.length < b →
      unstripUI (wrapUI w b line) = line := by
  intro b
  induction b with
  | zero => intro line hlen; omega
  | succ b ih =>
    intro line hlen
    by_cases hcut : w - 1 ≤ line.length
    · rw [wrapUI, if_pos hcut]
      have hlen2 : (' ' :: ' ' :: line.drop (w - 1)).length < b := by
        simp only [List.length_cons, List.length_drop]
        omega
      obtain ⟨t, ts, heq, hht⟩ := wrapUI_cons w b (' ' :: ' ' :: line.drop (w - 1))
        (by omega)
      have hts : unstripUI (t :: ts) = ' ' :: ' ' :: line.drop (w - 1) := by
        rw [← heq]
        exact ih _ hlen2
      have ht2 : 2 ≤ t.length := by
        rcases hht with h1 | h1
        · rw [h1]
          simp only [List.length_take, List.length_cons, List.length_drop]
          omega
        · rw [h1]
          simp
      rw [heq]
      show line.take (w - 1) ++ dropPad (t :: ts) = line
      have hdp : dropPad (t :: ts) = t.drop 2 ++ dropPad ts := by
        simp [dropPad]
      have hun : t ++ dropPad ts = ' ' :: ' ' :: line.drop (w - 1) := hts
      have hdrop : t.drop 2 ++ dropPad ts = line.drop (w - 1) := by
        have := congrArg (List.drop 2) hun
        rwa [List.drop_append_of_le_length ht2] at this
      rw [hdp, hdrop, List.take_append_drop]
    · rw [wrapUI, if_neg hcut]
      show line ++ dropPad [] = line
      simp [dropPad]

/-- C7 witness: the round trip applied to the hard-cut example line. -/
theorem ui_wrap_round_trip_witness :
    unstripUI (wrapUI 5 10 ("ab cdef".data)) = "ab cdef".data :=
  ui_wrap_round_trip 5 (by norm_num) 10 ("ab cdef".data) (by decide)

/-
  Claim C8.
-/

/-- C8: the failure string returned by both fetchers on a failed search is
    missing from NOT_LYRICS, so fill_tags writes it into the tags of a song
    file whose lyrics tag is empty, while the three NOT_LYRICS sentinels
    leave the tags unchanged.  This contradicts the stated intent that no
    sentinel failure string is persisted: once written, the 17-character
    string also passes the length-over-12 check of get_lyrics and is
    treated as real lyrics on every later run. -/
theorem fill_tags_writes_lyrics_not_found :
    fill_tags { lyrics := "", artist := none, title := none }
        "Lyrics not found." "A" "T"
      = ({ lyrics := "Lyrics not found.", artist := some "A", title := some "T" }, true) ∧
    fill_tags { lyrics := "", artist := none, title := none }
        "No internet connection." "A" "T"
      = ({ lyrics := "", artist := none, title := none }, false) ∧
    fill_tags { lyrics := "", artist := none, title := none }
        "No lyrics tag. Running in offline mode." "A" "T"
      = ({ lyrics := "", artist := none, title := none }, false) ∧
    fill_tags { lyrics := "", artist := none, title := none }
        "No Genius API token provided." "A" "T"
      = ({ lyrics := "", artist := none, title := none }, false) := by
  decide

/-
  Claim C10.
-/

/-- C10: fill_tags saves only when the existing lyrics tag string is
    shorter than 16 characters (and the text is not a NOT_LYRICS sentinel);
    when it saves it writes the lyric text into the lyrics tag and fills
    artist and title only when absent, keeping present values; when it does
    not save the tags are entirely unchanged, in particular whenever the
    lyrics tag has length 16 or more. -/
theorem fill_tags_frame (tags : Tags) (lyrics artist title : String) :
    (16 ≤ tags.lyrics.length → fill_tags tags lyrics artist title = (tags, false)) ∧
    ((fill_tags tags lyrics artist title).2 = true →
      tags.lyrics.length < 16 ∧ lyrics ∉ NOT_LYRICS ∧
      (fill_tags tags lyrics artist title).1.lyrics = lyrics ∧
      (fill_tags tags lyrics artist title).1.artist = some (tags.artist.getD artist) ∧
      (fill_tags tags lyrics artist title).1.title = some (tags.title.getD title)) ∧
    ((fill_tags tags lyrics artist title).2 = false →
      (fill_tags tags lyrics artist title).1 = tags) := by
  unfold fill_tags
  by_cases h1 : lyrics ∈ NOT_LYRICS
  · rw [if_pos h1]
    refine ⟨fun _ => rfl, fun hfalse => absurd hfalse (by simp), fun _ => rfl⟩
  · rw [if_neg h1]
    by_cases h2 : tags.lyrics.length < 16
    · rw [if_pos h2]
      exact ⟨fun h16 => absurd h2 (by omega), fun _ => ⟨h2, h1, rfl, rfl, rfl⟩,
        fun hfalse => absurd hfalse (by simp)⟩
    · rw [if_neg h2]
      exact ⟨fun _ => rfl, fun hfalse => absurd hfalse (by simp), fun _ => rfl⟩

/-- C10 witness: a file whose lyrics tag already holds 17 characters is
    left unchanged, and a write into an empty file keeps nothing and fills
    everything. -/
theorem fill_tags_frame_witness :
    fill_tags { lyrics := "0123456789abcdefg", artist := some "X", title := none }
        "new lyrics text here" "A" "T"
      = ({ lyrics := "0123456789abcdefg", artist := some "X", title := none }, false) :=
  (fill_tags_frame { lyrics := "0123456789abcdefg", artist := some "X", title := none }
    "new lyrics text here" "A" "T").1 (by decide)

/-
  Claim C9.
-/

/-- A full UI holding ten lines. -/
def exUI : UI := { lines := List.replicate 10 ['x'], position := 0, position_old := 0 }

/-- C9 counterexample: an auto-follow update with position 2000 on a song
    of duration 100 and a 2-row screen puts the scroll position at 199,
    far outside the claimed range [0, N - 1] = [0, 9]. -/
theorem scroll_top_exceeds_bound :
    UI.scroll exUI 100 2000 2 = some { exUI with position := 199, position_old := 199 } ∧
    ¬ ((199 : ℤ) ≤ (exUI.lines.length : ℤ) - 1) := by
  constructor
  · norm_num [UI.scroll, exUI, pyTrunc]
  · norm_num [exUI]

/-- C9 (amended): the scroll position of the full UI stays nonnegative
    under every sequence of auto-follow updates and manual inputs; an
    auto-follow update keeps it at most N - 1 provided the playback
    position is nonnegative and strictly below the duration (positions at
    or past the duration can push it past N - 1); a manual down input
    leaves it strictly below N - rows / 2 + 1, so it can pass the claimed
    bound N - rows / 2 by at most one half when rows is odd. -/
theorem scroll_position_bounds :
    (∀ (st : UI) (evs : List UIEv) (st2 : UI), 0 ≤ st.position →
      applyEvs st evs = some st2 → 0 ≤ st2.position) ∧
    (∀ (st st2 : UI) (dur pos : ℚ) (h : ℕ), 0 ≤ pos → pos < dur →
      st.scroll dur pos h = some st2 → st2.position ≤ max 0 ((st.lines.length : ℤ) - 1)) ∧
    (∀ (st : UI) (h : ℕ),
      ((st.wait_input h .down).1.position : ℚ) <
        max (st.position : ℚ) ((st.lines.length : ℚ) - (h : ℚ) / 2) + 1) := by
  refine ⟨?_, ?_, ?_⟩
  · have hstep : ∀ (st : UI) (e : UIEv) (st2 : UI), 0 ≤ st.position →
        applyEv st e = some st2 → 0 ≤ st2.position := by
      intro st e st2 hpos happ
      match e with
      | .scrollEv dur pos h =>
        rw [applyEv, UI.scroll] at happ
        split at happ
        · exact absurd happ (by simp)
        · have := Option.some.inj happ
          rw [← this]
          exact le_max_left 0 _
      | .keyEv h k =>
        rw [applyEv] at happ
        have h2 := Option.some.inj happ
        match k with
        | .up =>
          rw [UI.wait_input] at h2
          split at h2
          · rw [← h2]
            simp only
            omega
          · rw [← h2]
            exact hpos
        | .down =>
          rw [UI.wait_input] at h2
          split at h2
          · rw [← h2]
            simp only
            omega
          · rw [← h2]
            exact hpos
        | .resize => rw [← h2]; exact hpos
        | .idle => rw [← h2]; exact hpos
    intro st evs
    induction evs generalizing st with
    | nil =>
      intro st2 hpos happ
      rw [applyEvs] at happ
      rw [← Option.some.inj happ]
      exact hpos
    | cons e es ih =>
      intro st2 hpos happ
      rw [applyEvs] at happ
      split at happ
      · rename_i mid hmid
        exact ih _ st2 (hstep st e mid hpos hmid) happ
      · exact absurd happ (by simp)
  · intro st st2 dur pos h hp hlt happ
    have hdur : 0 < dur := lt_of_le_of_lt hp hlt
    rw [UI.scroll] at happ
    rw [if_neg (by exact ne_of_gt hdur)] at happ
    have hst2 := Option.some.inj happ
    have hN : (0 : ℚ) ≤ (st.lines.length : ℚ) := Nat.cast_nonneg _
    have hx : (0 : ℚ) ≤ pos * st.lines.length / dur :=
      div_nonneg (mul_nonneg hp hN) hdur.le
    have hfloor : pyTrunc (pos * st.lines.length / dur) ≤ (st.lines.length : ℤ) - 1 ∨
        st.lines.length = 0 := by
      by_cases h0 : st.lines.length = 0
      · exact Or.inr h0
      · left
        have hNpos : (0 : ℚ) < (st.lines.length : ℚ) := by
          exact_mod_cast Nat.pos_of_ne_zero h0
        have hxlt : pos * st.lines.length / dur < st.lines.length := by
          rw [div_lt_iff₀ hdur]
          calc pos * st.lines.length < dur * st.lines.length :=
                mul_lt_mul_of_pos_right hlt hNpos
            _ = (st.lines.length : ℚ) * dur := mul_comm _ _
        have h6 : ⌊pos * st.lines.length / dur⌋ < (st.lines.length : ℤ) :=
          Int.floor_lt.mpr (by exact_mod_cast hxlt)
        rw [pyTrunc, if_pos hx]
        omega
    rw [← hst2]
    simp only
    rcases hfloor with h7 | h7
    · have : pyTrunc (pos * st.lines.length / dur) - (h / 2 : ℕ) ≤
          (st.lines.length : ℤ) - 1 := by omega
      exact le_trans (max_le_max (le_refl 0) this) (max_le (le_max_left _ _) (le_max_right _ _))
    · have hzero : pos * (st.lines.length : ℚ) / dur = 0 := by
        rw [h7]
        simp
      rw [hzero] at *
      have : pyTrunc 0 = 0 := by norm_num [pyTrunc]
      rw [this]
      simp only [h7]
      have : max (0 : ℤ) (0 - (h / 2 : ℕ)) = 0 := by omega
      rw [this]
      exact le_max_left 0 _
  · intro st h
    rw [UI.wait_input]
    split
    · rename_i hcond
      simp only [Int.cast_add, Int.cast_one]
      calc (st.position : ℚ) + 1 < ((st.lines.length : ℚ) - (h : ℚ) / 2) + 1 := by
            exact add_lt_add_right hcond 1
        _ ≤ max (st.position : ℚ) ((st.lines.length : ℚ) - (h : ℚ) / 2) + 1 :=
            add_le_add_right (le_max_right _ _) 1
    · simp only
      calc (st.position : ℚ) ≤ max (st.position : ℚ) ((st.lines.length : ℚ) - (h : ℚ) / 2) :=
            le_max_left _ _
        _ < max (st.position : ℚ) ((st.lines.length : ℚ) - (h : ℚ) / 2) + 1 := by linarith

/-- C9 witness: the amended bounds applied to concrete states: an empty
    event sequence keeps the position nonnegative, a scroll at position 55
    of duration 100 on ten lines stays within the bound, and a down input
    on a 4-row window obeys the strict bound. -/
theorem scroll_position_bounds_witness :
    (0 ≤ exUI.position) ∧
    ((UI.scroll exUI 100 55 4).getD exUI).position ≤ max 0 ((exUI.lines.length : ℤ) - 1) ∧
    (((exUI.wait_input 4 .down).1.position : ℚ) <
      max (exUI.position : ℚ) ((exUI.lines.length : ℚ) - (4 : ℚ) / 2) + 1) := by
  refine ⟨?_, ?_, ?_⟩
  · exact scroll_position_bounds.1 exUI [] exUI (by norm_num [exUI]) rfl
  · have hs : UI.scroll exUI 100 55 4 = some { exUI with position := 3, position_old := 3 } := by
      norm_num [UI.scroll, exUI, pyTrunc]
    have := scroll_position_bounds.2.1 exUI { exUI with position := 3, position_old := 3 }
      100 55 4 (by norm_num) (by norm_num) hs
    rw [hs]
    exact this
  · exact scroll_position_bounds.2.2 exUI 4

/-
  Claim C5.
-/

theorem wait_input_idle (ui : UI) (h : ℕ) : ui.wait_input h .idle = (ui, false) := rfl

theorem wait_input_up_at_top (ui : UI) (h : ℕ) (hp : ui.position = 0) :
    ui.wait_input h .up = (ui, false) := by
  rw [UI.wait_input, if_neg]
  omega

theorem loopTail_skip (auto : Bool) (h : ℕ) (k : Key) (st : LoopState)
    (hns : auto ≠ true ∨ st.disable_auto_scroll ≠ false ∨ st.position = st.position_old) :
    loopTail auto h k st = .next
      { st with ui := (st.ui.wait_input h k).1
                disable_auto_scroll := st.disable_auto_scroll || (st.ui.wait_input h k).2
                timer := st.timer + 1 } := by
  rw [loopTail]
  have hcond : ¬ (auto = true ∧ st.disable_auto_scroll = false ∧
      st.position ≠ st.position_old) := by
    rintro ⟨h1, h2, h3⟩
    rcases hns with hh | hh | hh
    · exact hh h1
    · exact hh h2
    · exact h3 hh
  rw [if_neg hcond]

theorem loopTail_idle_disable (auto : Bool) (h : ℕ) (st : LoopState) (st2 : LoopState)
    (hstep : loopTail auto h .idle st = .next st2) :
    st2.disable_auto_scroll = st.disable_auto_scroll := by
  rw [loopTail] at hstep
  split at hstep
  · exact absurd hstep (by simp)
  · rename_i mid heq
    injection hstep with h2
    rw [← h2]
    simp only [wait_input_idle, Bool.or_false]
    split at heq
    · split at heq
      · rename_i ui2 hui
        injection heq with h3
        rw [← h3]
      · exact absurd heq (by simp)
    · injection heq with h3
      rw [← h3]

/-- Three lines, auto-follow still enabled, scroll at the top. -/
def exLoop : LoopState :=
  { ui := { lines := [['a'], ['b'], ['c']], position := 0, position_old := 0 }
    song_path := "s"
    song_path_old := "s"
    duration := 100
    position := 0
    position_old := 0
    timer := 0
    disable_auto_scroll := false }

/-- C5 counterexample: a scroll-up input received while already at the top
    boundary is reported as not pressed by wait_input, so the iteration
    leaves disable_auto_scroll false: a manual input received at a scroll
    boundary does not disable auto-follow, contrary to the claim. -/
theorem boundary_input_keeps_auto_follow :
    loopStep true 10 ("s", 100, 0) [] .up exLoop = .next { exLoop with timer := 1 } ∧
    ({ exLoop with timer := 1 }).disable_auto_scroll = false := by
  constructor
  · rfl
  · rfl

/-- C5 (amended): auto-follow becomes disabled by a manual input only when
    the input actually moves the scroll position (an input at a boundary
    does not disable it); while disabled and with no song change, an
    iteration leaves the view exactly where input handling puts it and the
    flag stays disabled, so position ticks never move the scroll; a song
    change re-enables auto-follow, and nothing else re-enables it. -/
theorem auto_follow_behavior :
    (∀ (auto : Bool) (h : ℕ) (poll : String × ℚ × ℚ) (newLyrics : List Char) (k : Key)
       (st st2 : LoopState),
       st.disable_auto_scroll = true →
       (checkStatus ≤ st.timer → poll.1 = st.song_path_old) →
       (st.timer < checkStatus → st.song_path = st.song_path_old) →
       loopStep auto h poll newLyrics k st = .next st2 →
       st2.disable_auto_scroll = true ∧ st2.ui = (st.ui.wait_input h k).1) ∧
    (∀ (h : ℕ) (poll : String × ℚ × ℚ) (newLyrics : List Char) (st st2 : LoopState),
       st.disable_auto_scroll = false →
       st.ui.position = 0 →
       (checkStatus ≤ st.timer → poll.1 = st.song_path_old ∧ poll.2.2 = st.position_old) →
       (st.timer < checkStatus → st.song_path = st.song_path_old) →
       st.position = st.position_old →
       loopStep true h poll newLyrics .up st = .next st2 →
       st2.disable_auto_scroll = false) ∧
    (∀ (auto : Bool) (h : ℕ) (poll : String × ℚ × ℚ) (newLyrics : List Char)
       (st st2 : LoopState),
       checkStatus ≤ st.timer →
       poll.1 ≠ st.song_path_old → poll.1 ≠ "" →
       loopStep auto h poll newLyrics .idle st = .next st2 →
       st2.disable_auto_scroll = false) := by
  refine ⟨?_, ?_, ?_⟩
  · intro auto h poll newLyrics k st st2 hd hfire hnofire hstep
    simp only [loopStep] at hstep
    by_cases hf : checkStatus ≤ st.timer
    · simp only [if_pos hf] at hstep
      rw [if_neg (by simp [hfire hf])] at hstep
      rw [loopTail_skip _ _ _ _ (Or.inr (Or.inl (by simp [hd])))] at hstep
      injection hstep with h2
      rw [← h2]
      refine ⟨by simp [hd], rfl⟩
    · simp only [if_neg hf] at hstep
      rw [if_neg (by simp [hnofire (by omega)])] at hstep
      rw [loopTail_skip _ _ _ _ (Or.inr (Or.inl (by simp [hd])))] at hstep
      injection hstep with h2
      rw [← h2]
      refine ⟨by simp [hd], rfl⟩
  · intro h poll newLyrics st st2 hd hpos hfire hnofire hold hstep
    simp only [loopStep] at hstep
    by_cases hf : checkStatus ≤ st.timer
    · simp only [if_pos hf] at hstep
      rw [if_neg (by simp [(hfire hf).1])] at hstep
      rw [loopTail_skip _ _ _ _ (Or.inr (Or.inr (by simp [(hfire hf).2, hold])))] at hstep
      injection hstep with h2
      rw [← h2]
      simp [wait_input_up_at_top _ _ hpos, hd]
    · simp only [if_neg hf] at hstep
      rw [if_neg (by simp [hnofire (by omega)])] at hstep
      rw [loopTail_skip _ _ _ _ (Or.inr (Or.inr (by simp [hold])))] at hstep
      injection hstep with h2
      rw [← h2]
      simp [wait_input_up_at_top _ _ hpos, hd]
  · intro auto h poll newLyrics st st2 hf hnew hne hstep
    simp only [loopStep] at hstep
    simp only [if_pos hf] at hstep
    rw [if_pos hnew] at hstep
    rw [if_neg hne] at hstep
    have := loopTail_idle_disable _ _ _ _ hstep
    rw [this]

/-- The example loop state with auto-follow already disabled and the view
    scrolled to position 5. -/
def exLoopB : LoopState :=
  { exLoop with
    disable_auto_scroll := true
    ui := { lines := [['a'], ['b'], ['c']], position := 5, position_old := 5 } }

/-- The state after one iteration of the loop on exLoopB with an up input:
    the input moved the view up one row and the flag stayed disabled. -/
def exLoopB2 : LoopState :=
  { exLoopB with
    ui := { lines := [['a'], ['b'], ['c']], position := 4, position_old := 5 }
    timer := 1 }

/-- C5 witness: the amended claim applied to a disabled state receiving an
    up input during a position tick: the flag stays disabled and the view
    is exactly what input handling produced. -/
theorem auto_follow_behavior_witness :
    exLoopB2.disable_auto_scroll = true ∧
    exLoopB2.ui = (exLoopB.ui.wait_input 10 .up).1 := by
  refine auto_follow_behavior.1 true 10 ("s", 100, 0) [] .up exLoopB exLoopB2 rfl ?_ ?_ ?_
  · intro hf
    exact absurd hf (by norm_num [exLoopB, exLoop, checkStatus])
  · intro _
    rfl
  · rfl
